import Mathlib

/-! Verification of the score_metamodel Sphinx extension: a shallow embedding
of its metamodel loading (yaml_parser.py), schema emission (sn_schemas.py)
and check running (__init__.py), with theorems about the spec's claims.

Python dicts are embedded as association lists with Python's dict semantics
(insertion order kept, assignment replaces in place, `|` is right-biased on
values but keeps the left operand's key order first). Python exceptions
(AssertionError, NameError) are embedded as `Except String`. -/

namespace Spec2Proof

/-! ## Python string and dict operations

The Python string operations the source uses are embedded as structural
functions over the character list of a Lean string, so that every theorem
of this file can be evaluated on concrete inputs by the kernel. -/

/-- Python str.split(sep) for a one-character separator: str.split never
returns an empty list, and splitting the empty string yields [""]. -/
def pySplitList (sep : Char) : List Char → List (List Char)
  | [] => [[]]
  | c :: cs =>
    if c = sep then [] :: pySplitList sep cs
    else
      match pySplitList sep cs with
      | [] => [[c]]
      | h :: t => (c :: h) :: t

def pySplit (s : String) (sep : Char) : List String :=
  (pySplitList sep s.data).map String.mk

/-- Python str.strip(): drop leading and trailing whitespace. -/
def pyStrip (s : String) : String :=
  String.mk
    (((s.data.dropWhile Char.isWhitespace).reverse.dropWhile
      Char.isWhitespace).reverse)

/-- Python str.startswith(p). -/
def pyStartswith (s p : String) : Bool :=
  p.data.isPrefixOf s.data

/-- A Python set of strings, embedded as the deduplicated list in
first-occurrence order (set iteration order is unspecified in Python; only
membership matters to the theorems below). -/
def dedupFirst : List String → List String
  | [] => []
  | n :: rest => n :: (dedupFirst rest).filter (fun m => !(m == n))

/-! ## Python dict operations on association lists -/

/-- Python dict lookup `d.get(k)` on an association list (keys of dicts built
by the source are unique; lookup returns the first occurrence). -/
def dictGet {α : Type} : List (String × α) → String → Option α
  | [], _ => none
  | p :: rest, k => if p.1 == k then some p.2 else dictGet rest k

/-- Python `k in d`. -/
def dictContains {α : Type} : List (String × α) → String → Bool
  | [], _ => false
  | p :: rest, k => p.1 == k || dictContains rest k

/-- Python `d[k] = v`: replace the stored value in place, else append. -/
def dictSet {α : Type} (d : List (String × α)) (k : String) (v : α) :
    List (String × α) :=
  if dictContains d k then d.map (fun p => if p.1 == k then (k, v) else p)
  else d ++ [(k, v)]

/-- Python `a | b` on dicts: the keys of `a` in order, with values overridden
by `b` where `b` also has the key, then the keys of `b` absent from `a`. -/
def dictUnion {α : Type} (a b : List (String × α)) : List (String × α) :=
  (a.map (fun p =>
    match dictGet b p.1 with
    | some w => (p.1, w)
    | none => p)) ++
    b.filter (fun p => !dictContains a p.1)

/-! ## yaml_parser.py: parsing a need type declaration -/

/-- A raw needs_types entry of metamodel.yaml, as read by ruamel.yaml: keys
absent in the declaration are `none`. The `pfx` field embeds the YAML key
spelt like the Lean keyword for custom syntax declarations and is therefore
renamed here. -/
structure YamlNeedTypeDecl where
  title : String
  pfx : Option String
  tags : Option (List String)
  parts : Option Nat
  mandatory_options : Option (List (String × String))
  optional_options : Option (List (String × String))
  mandatory_links : Option (List (String × String))
  optional_links : Option (List (String × String))
  color : Option String
  style : Option String
  deriving Repr, DecidableEq

/-- A ScoreNeedType dict as produced by `_parse_need_type`: link option
values are still raw comma-separated specifier strings. `pfx` embeds the
dict key described above. -/
structure ScoreNeedType where
  directive : String
  title : String
  pfx : String
  tags : List String
  parts : Nat
  mandatory_options : List (String × String)
  optional_options : List (String × String)
  mandatory_links : List (String × String)
  optional_links : List (String × String)
  color : Option String
  style : Option String
  deriving Repr, DecidableEq

/-- yaml_parser._parse_need_type: build a single ScoreNeedType from the
metamodel entry, including defaults, then ensure the ID regex is set. -/
def _parse_need_type (directive_name : String) (yaml_data : YamlNeedTypeDecl)
    (global_base_opts : List (String × String)) : ScoreNeedType :=
  let t : ScoreNeedType :=
    { directive := directive_name
      title := yaml_data.title
      pfx := (YamlNeedTypeDecl.pfx yaml_data).getD (directive_name ++ "__")
      tags := yaml_data.tags.getD []
      parts := yaml_data.parts.getD 3
      mandatory_options := yaml_data.mandatory_options.getD []
      optional_options :=
        dictUnion (yaml_data.optional_options.getD []) global_base_opts
      mandatory_links := yaml_data.mandatory_links.getD []
      optional_links := yaml_data.optional_links.getD []
      color := yaml_data.color
      style := yaml_data.style }
  if dictContains t.mandatory_options "id" then t
  else { t with mandatory_options := dictSet t.mandatory_options "id" ("^" ++ ScoreNeedType.pfx t ++ "[0-9a-z_]+$") }

/-! ## sn_schemas.py: schema emission -/

def SN_ARRAY_FIELDS : List String := ["tags", "sections"]

def IGNORE_FIELDS : List String := ["content"]

/-- A field pattern schema: a plain string pattern, or (for the designated
multi-valued fields) an array whose items match the pattern. -/
inductive FieldSchema where
  | patternSchema (p : String)
  | arrayPatternSchema (p : String)
  deriving Repr, DecidableEq

def get_pattern_schema (pattern : String) : FieldSchema :=
  FieldSchema.patternSchema pattern

def get_array_pattern_schema (pattern : String) : FieldSchema :=
  FieldSchema.arrayPatternSchema pattern

def get_field_pattern_schema (field pattern : String) : FieldSchema :=
  if SN_ARRAY_FIELDS.contains field then get_array_pattern_schema pattern
  else get_pattern_schema pattern

/-- A property entry of the local validator: a field pattern schema, an
array with at least one item (mandatory regex link), or a plain array
(optional regex link). -/
inductive LocalPropSchema where
  | fieldPattern (fs : FieldSchema)
  | arrayMinOne
  | arrayAny
  deriving Repr, DecidableEq

structure LocalValidator where
  properties : List (String × LocalPropSchema)
  required : List String
  deriving Repr, DecidableEq

/-- The per-link network validator the source would build for a concrete
link target (items.local.properties.type.const). -/
structure NetworkLinkValidator where
  targetType : String
  deriving Repr, DecidableEq

/-- The emitted selector: properties.type.const with "type" required. -/
structure Selector where
  typeConst : String
  deriving Repr, DecidableEq

structure TypeSchema where
  id : String
  severity : String
  message : String
  select : Selector
  validateLocal : LocalValidator
  validateNetwork : Option (List (String × NetworkLinkValidator))
  deriving Repr, DecidableEq

/-- The duplicate-pattern error message of write_sn_schemas (kind is
"mandatory" or "optional"). -/
def multipleRegexMsg (kind field type_name : String) : String :=
  "Multiple regex patterns for " ++ kind ++ " link field '" ++ field ++
    "' in need type '" ++ type_name ++
    "'. Only the first one will be used in the schema."

/-- State of the per-type link scanning loops of write_sn_schemas:
(regex dict, concrete-target dict, logged error lines). -/
abbrev LinkScanState :=
  List (String × String) × List (String × String) × List String

/-- The inner loop over the split values of one link field in
write_sn_schemas. `tn` is the current value of the type_name variable,
which the source assigns only at the end of each non-skipped iteration: the
duplicate-pattern branch reads it, which raises NameError when it was never
assigned. -/
def collectRegexValues (kind : String) (tn : Option String) (field : String) :
    List String → List (String × String) → List (String × String) →
    List String → Except String LinkScanState
  | [], regexes, targets, errs => .ok (regexes, targets, errs)
  | v :: vs, regexes, targets, errs =>
    if pyStartswith v "^" then
      if dictContains regexes field then
        match tn with
        | none => .error "NameError"
        | some name =>
          collectRegexValues kind tn field vs (dictSet regexes field v) targets
            (errs ++ [multipleRegexMsg kind field name])
      else
        collectRegexValues kind tn field vs (dictSet regexes field v) targets errs
    else
      collectRegexValues kind tn field vs regexes (dictSet targets field v) errs

/-- The outer loop over one links dict in write_sn_schemas. -/
def collectLinkRegexes (kind : String) (tn : Option String) :
    List (String × String) → List (String × String) → List (String × String) →
    List String → Except String LinkScanState
  | [], regexes, targets, errs => .ok (regexes, targets, errs)
  | (field, value) :: rest, regexes, targets, errs =>
    match collectRegexValues kind tn field ((pySplit value ',').map pyStrip)
        regexes targets errs with
    | .error e => .error e
    | .ok (r, t, e) => collectLinkRegexes kind tn rest r t e

/-- The skip test of write_sn_schemas: a type declaring no field or link
constraint is skipped. -/
def hasConstraints (t : ScoreNeedType) : Bool :=
  !t.mandatory_options.isEmpty || !t.optional_options.isEmpty ||
    !t.mandatory_links.isEmpty || !t.optional_links.isEmpty

/-- The local validator built for one type from its field dicts and the
collected regex link dicts, in the source's loop order. -/
def buildLocalValidator (t : ScoreNeedType)
    (mRegexes oRegexes : List (String × String)) : LocalValidator :=
  let vl1 := t.mandatory_options.foldl (fun vl p => if IGNORE_FIELDS.contains p.1 then vl else { vl with required := vl.required ++ [p.1], properties := dictSet vl.properties p.1 (LocalPropSchema.fieldPattern (get_field_pattern_schema p.1 p.2)) }) { properties := [], required := [] }
  let vl2 := t.optional_options.foldl (fun vl p => if IGNORE_FIELDS.contains p.1 then vl else { vl with properties := dictSet vl.properties p.1 (LocalPropSchema.fieldPattern (get_field_pattern_schema p.1 p.2)) }) vl1
  let vl3 := mRegexes.foldl (fun vl p => { vl with properties := dictSet vl.properties p.1 LocalPropSchema.arrayMinOne, required := vl.required ++ [p.1] }) vl2
  oRegexes.foldl (fun vl p => { vl with properties := dictSet vl.properties p.1 LocalPropSchema.arrayAny }) vl3

/-- The schema object write_sn_schemas appends for one non-skipped type
(type_name has just been assigned the type's directive at this point). The
source iterates the concrete-target dicts building per-link network
validators, but the statements storing them into validator_network are
commented out, so validator_network stays empty and the network key is
never added. -/
def mkTypeSchema (t : ScoreNeedType)
    (mRegexes oRegexes : List (String × String)) : TypeSchema :=
  let validator_network : List (String × NetworkLinkValidator) := []
  { id := "need-type-" ++ t.directive
    severity := "violation"
    message := "Need does not conform to S-CORE metamodel"
    select := { typeConst := t.directive }
    validateLocal := buildLocalValidator t mRegexes oRegexes
    validateNetwork :=
      if validator_network.isEmpty then none else some validator_network }

/-- Processing of one need type in write_sn_schemas: `tn` is the incoming
value of the type_name variable. Returns the emitted schema (none when the
type is skipped), the error lines logged so far for this type, and the
outgoing value of type_name. -/
def emitNeedType (tn : Option String) (t : ScoreNeedType) :
    Except String (Option TypeSchema × List String × Option String) :=
  if hasConstraints t then
    match collectLinkRegexes "mandatory" tn t.mandatory_links [] [] [] with
    | .error e => .error e
    | .ok (mr, _mt, e1) =>
      match collectLinkRegexes "optional" tn t.optional_links [] [] e1 with
      | .error e => .error e
      | .ok (orx, _ot, e12) =>
        .ok (some (mkTypeSchema t mr orx), e12, some t.directive)
  else
    .ok (none, [], tn)

/-- The loop of write_sn_schemas over the registry, threading the type_name
variable. -/
def write_sn_schemas_go (tn : Option String) :
    List ScoreNeedType → Except String (List TypeSchema × List String)
  | [] => .ok ([], [])
  | t :: rest =>
    match emitNeedType tn t with
    | .error e => .error e
    | .ok (sOpt, errs, tn2) =>
      match write_sn_schemas_go tn2 rest with
      | .error e => .error e
      | .ok (schemas, errs2) =>
        .ok ((match sOpt with
              | some s => s :: schemas
              | none => schemas), errs ++ errs2)

/-- write_sn_schemas: the emitted per-type schemas and the logged error
lines (the json file write and the config assignment are I/O and omitted);
an uncaught NameError is an `.error`. -/
def write_sn_schemas (needs_types : List ScoreNeedType) :
    Except String (List TypeSchema × List String) :=
  write_sn_schemas_go none needs_types

/-- Number of wildcard entries among the split, trimmed values of one link
specifier string. -/
def wildcardCount (value : String) : Nat :=
  (((pySplit value ',').map pyStrip).filter
    (fun v => pyStartswith v "^")).length

/-- The value of the type_name variable of write_sn_schemas after the
emitter has processed a prefix of the registry, starting from `tn`: each
non-skipped type assigns its directive at the end of its iteration, a
skipped type leaves it unchanged. In a run that reaches the end of the
prefix this is the directive of the last constrained type in it. -/
def tnAfter (tn : Option String) : List ScoreNeedType → Option String
  | [] => tn
  | t :: rest => tnAfter (if hasConstraints t then some t.directive else tn) rest

/-! ## Items and selector semantics -/

/-- One need item (graph node): the narrow contract the runner and the
emitted selector rely on. -/
structure Item where
  id : String
  type : String
  is_external : Bool
  deriving Repr, DecidableEq

/-- Modelled from the spec: the external structural validator applies the
emitted selector, the JSON schema fragment requiring the "type" property
and constraining it with "const", so an item is selected exactly when its
type property equals the const. -/
def selMatches (sel : Selector) (it : Item) : Bool :=
  it.type == sel.typeConst

/-! ## __init__.py: link postprocessing -/

/-- An entry of a resolved link value: a regex kept as-is, or a reference to
the registry's type definition with the given directive (the source stores
the dict object itself; the reference is embedded by its registry key, which
postprocessing never changes). -/
inductive LinkEntry where
  | pattern (s : String)
  | ref (directive : String)
  deriving Repr, DecidableEq

/-- The runtime value of one link option of a needs_types entry: the raw
comma-separated string before postprocessing, the resolved entry list
afterwards. -/
inductive LinkVal where
  | str (s : String)
  | resolved (entries : List LinkEntry)
  deriving Repr, DecidableEq

/-- The runtime shape of an app.config.needs_types entry as read by
postprocess_need_links: a link dict is `none` when the dict has no such key
(the KeyError branch, hit by the Sphinx-Needs default types). -/
structure CfgNeedType where
  directive : String
  mandatory_links : Option (List (String × LinkVal))
  optional_links : Option (List (String × LinkVal))
  deriving Repr, DecidableEq

/-- The configuration-error line logged by _resolve_linkable_types for an
unknown concrete link target. -/
def unknownTypeMsg (current_directive link_name v : String) : String :=
  "In metamodel.yaml: " ++ current_directive ++ ", link '" ++ link_name ++
    "' references unknown type '" ++ v ++ "'."

/-- The needs_types_dict comprehension of _resolve_linkable_types, as a
lookup: directive → entry (for duplicate directives the last wins, as for
a Python dict comprehension). -/
def needsTypesDictGet (needs_types : List CfgNeedType) (v : String) :
    Option CfgNeedType :=
  needs_types.foldl (fun acc nt => if nt.directive == v then some nt else acc)
    none

/-- _resolve_linkable_types: resolve one link option string against the
registry. Returns the resolved entries and the logged error lines. -/
def _resolve_linkable_types (link_name link_value : String)
    (current_need_type : CfgNeedType) (needs_types : List CfgNeedType) :
    List LinkEntry × List String :=
  ((pySplit link_value ',').map pyStrip).foldl
    (fun acc v =>
      if pyStartswith v "^" then (acc.1 ++ [LinkEntry.pattern v], acc.2)
      else
        match needsTypesDictGet needs_types v with
        | none =>
          (acc.1,
            acc.2 ++ [unknownTypeMsg (CfgNeedType.directive current_need_type)
              link_name v])
        | some target_need_type =>
          (acc.1 ++ [LinkEntry.ref target_need_type.directive], acc.2))
    ([], [])

/-- The loop of postprocess_need_links over one link dict: each value must
still be a raw string (the source asserts isinstance(link_value, str), so a
resolved list fails the assert); each string is resolved and the resolved
list stored in place. -/
def resolveLinkDict (current : CfgNeedType) (allTypes : List CfgNeedType) :
    List (String × LinkVal) →
    Except String (List (String × LinkVal) × List String)
  | [] => .ok ([], [])
  | (link_name, lv) :: rest =>
    match lv with
    | .resolved _ => .error "AssertionError"
    | .str s =>
      let res := _resolve_linkable_types link_name s current allTypes
      match resolveLinkDict current allTypes rest with
      | .error e => .error e
      | .ok (rest2, errs2) =>
        .ok ((link_name, LinkVal.resolved res.1) :: rest2, res.2 ++ errs2)

/-- The loop of postprocess_need_links over the registry. The registry is
passed unchanged as the lookup context: resolution reads only directives,
which the in-place mutation never touches. On a fault the registry's
partial mutation is not observable here (the exception propagates). -/
def postprocessGo (allTypes : List CfgNeedType) :
    List CfgNeedType → Except String (List CfgNeedType × List String)
  | [] => .ok ([], [])
  | t :: rest =>
    let step : Except String (CfgNeedType × List String) :=
      match t.mandatory_links, t.optional_links with
      | some ml, some ol =>
        match resolveLinkDict t allTypes ml with
        | .error e => .error e
        | .ok (ml2, e1) =>
          match resolveLinkDict t allTypes ol with
          | .error e => .error e
          | .ok (ol2, e2) =>
            .ok ({ t with mandatory_links := some ml2, optional_links := some ol2 }, e1 ++ e2)
      | _, _ => .ok (t, [])
    match step with
    | .error e => .error e
    | .ok (t2, errs) =>
      match postprocessGo allTypes rest with
      | .error e => .error e
      | .ok (rest2, errs2) => .ok (t2 :: rest2, errs ++ errs2)

/-- postprocess_need_links: convert link option strings into lists of
resolved targets across the registry; a failed assert is `.error`. -/
def postprocess_need_links (needs_types_list : List CfgNeedType) :
    Except String (List CfgNeedType × List String) :=
  postprocessGo needs_types_list needs_types_list

/-! ## __init__.py: check registry and runner -/

/-- A log event a check reports through the CheckLogger. Modelled from the
spec: ResultLog accumulates warningCount, infoCount and the messages
(log.py is not among the staged sources). -/
inductive LogEvent where
  | warn (msg : String)
  | info (msg : String)
  deriving Repr, DecidableEq

/-- A registered local check: its __name__ and its behaviour on one item:
the events it logs, and, when the second component is some, the uncaught
exception it raises after logging them. -/
structure LocalCheck where
  name : String
  run : Item → List LogEvent × Option String

/-- A registered graph check, invoked on the full item collection. -/
structure GraphCheck where
  name : String
  run : List Item → List LogEvent × Option String

/-- The union of registered check names (a Python set; embedded as the
deduplicated list in first-occurrence order). -/
def allCheckNames (local_checks : List LocalCheck)
    (graph_checks : List GraphCheck) : List String :=
  dedupFirst ((local_checks.map LocalCheck.name) ++ (graph_checks.map GraphCheck.name))

/-- The AssertionError message of parse_checks_filter for an unknown check
name: it lists all valid check names. -/
def checksFilterError (check : String) (names : List String) : String :=
  "Check: '" ++ check ++ "' is not one of the defined local or graph checks: " ++ String.intercalate ", " names

/-- parse_checks_filter: split the comma-separated list of enabled check
names and trim each; every name must be a registered local or graph check
name or the assert fails (fatally), with a message listing all of them. -/
def parse_checks_filter (filterStr : String) (local_checks : List LocalCheck)
    (graph_checks : List GraphCheck) : Except String (List String) :=
  if filterStr = "" then .ok []
  else
    let checks := (pySplit filterStr ',').map pyStrip
    let names := allCheckNames local_checks graph_checks
    match checks.find? (fun c => !names.contains c) with
    | some bad => .error (checksFilterError bad names)
    | none => .ok checks

/-- is_check_enabled of _run_checks: with an empty filter every check is
enabled. -/
def isCheckEnabled (checks_filter : List String) (name : String) : Bool :=
  checks_filter.isEmpty || checks_filter.contains name

/-- The CheckLogger state: warning and info counters and the messages.
Modelled from the spec (log.py is not among the staged sources); a fresh
one is constructed per run. -/
structure LogState where
  warnings : Nat
  infos : Nat
  messages : List String
  deriving Repr, DecidableEq

def logAdd (st : LogState) : LogEvent → LogState
  | .warn m => { st with warnings := st.warnings + 1, messages := st.messages ++ [m] }
  | .info m => { st with infos := st.infos + 1, messages := st.messages ++ [m] }

/-- The inner loop of the local phase: run each enabled local check on one
need, in registration order, stopping at the first uncaught exception.
Returns the invocation trace, the log state and the exception if any. -/
def runLocalChecksForNeed (checks : List LocalCheck) (need : Item)
    (st : LogState) : List (String × Item) × LogState × Option String :=
  match checks with
  | [] => ([], st, none)
  | c :: cs =>
    let r := c.run need
    let st2 := r.1.foldl logAdd st
    match r.2 with
    | some e => ([(c.name, need)], st2, some e)
    | none =>
      let res := runLocalChecksForNeed cs need st2
      ((c.name, need) :: res.1, res.2.1, res.2.2)

/-- The local phase: iterate the non-external needs, running every enabled
local check on each. -/
def runLocalPhase (checks : List LocalCheck) :
    List Item → LogState → List (String × Item) × LogState × Option String
  | [], st => ([], st, none)
  | n :: ns, st =>
    let r1 := runLocalChecksForNeed checks n st
    match r1.2.2 with
    | some e => (r1.1, r1.2.1, some e)
    | none =>
      let r2 := runLocalPhase checks ns r1.2.1
      (r1.1 ++ r2.1, r2.2.1, r2.2.2)

/-- The graph phase: every enabled graph check is invoked once with the
full item collection. -/
def runGraphPhase (allNeeds : List Item) :
    List GraphCheck → LogState →
    List (String × List Item) × LogState × Option String
  | [], st => ([], st, none)
  | c :: cs, st =>
    let r := c.run allNeeds
    let st2 := r.1.foldl logAdd st
    match r.2 with
    | some e => ([(c.name, allNeeds)], st2, some e)
    | none =>
      let r2 := runGraphPhase allNeeds cs st2
      ((c.name, allNeeds) :: r2.1, r2.2.1, r2.2.2)

/-- The configuration state _run_checks reads: the needs_types registry
(mutated in place by postprocessing and surviving between runs of one
build session), the enabled-checks filter string, and the registered
checks. -/
structure Config where
  needs_types : List CfgNeedType
  score_metamodel_checks : String
  local_checks : List LocalCheck
  graph_checks : List GraphCheck

/-- Everything observable about one invocation of _run_checks: the registry
after the run (its in-place mutation), the logged configuration errors, the
invocation traces, the final counters and messages, whether each summary
was emitted, and the uncaught exception when the run aborted. -/
structure RunOutput where
  needs_types : List CfgNeedType
  resolveErrors : List String
  localTrace : List (String × Item)
  graphTrace : List (String × List Item)
  warnings : Nat
  infos : Nat
  messages : List String
  summaryWarn : Bool
  summaryInfo : Bool
  fault : Option String
  deriving Repr, DecidableEq

def initialOutput (types : List CfgNeedType) : RunOutput :=
  { needs_types := types, resolveErrors := [], localTrace := [], graphTrace := [], warnings := 0, infos := 0, messages := [], summaryWarn := false, summaryInfo := false, fault := none }

/-- _run_checks: one run of the check runner. The build-finished exception
guard, then link postprocessing, the filter parse, the local phase over the
non-external needs, the graph phase over all needs, and the two summary
messages; an uncaught exception anywhere aborts the rest of the run. -/
def _run_checks (cfg : Config) (needs : List Item) (exception : Bool) :
    RunOutput :=
  if exception then initialOutput cfg.needs_types
  else
    match postprocess_need_links cfg.needs_types with
    | .error e => { initialOutput cfg.needs_types with fault := some e }
    | .ok (types2, rerrs) =>
      match parse_checks_filter cfg.score_metamodel_checks cfg.local_checks
          cfg.graph_checks with
      | .error e =>
        { initialOutput types2 with resolveErrors := rerrs, fault := some e }
      | .ok checks_filter =>
        let enabled_local_checks :=
          cfg.local_checks.filter (fun c => isCheckEnabled checks_filter c.name)
        let needs_local_needs := needs.filter (fun n => n.is_external == false)
        let r1 := runLocalPhase enabled_local_checks needs_local_needs
          { warnings := 0, infos := 0, messages := [] }
        match r1.2.2 with
        | some e =>
          { needs_types := types2, resolveErrors := rerrs, localTrace := r1.1, graphTrace := [], warnings := r1.2.1.warnings, infos := r1.2.1.infos, messages := r1.2.1.messages, summaryWarn := false, summaryInfo := false, fault := some e }
        | none =>
          let r2 := runGraphPhase needs
            (cfg.graph_checks.filter (fun c => isCheckEnabled checks_filter c.name))
            r1.2.1
          match r2.2.2 with
          | some e =>
            { needs_types := types2, resolveErrors := rerrs, localTrace := r1.1, graphTrace := r2.1, warnings := r2.2.1.warnings, infos := r2.2.1.infos, messages := r2.2.1.messages, summaryWarn := false, summaryInfo := false, fault := some e }
          | none =>
            { needs_types := types2, resolveErrors := rerrs, localTrace := r1.1, graphTrace := r2.1, warnings := r2.2.1.warnings, infos := r2.2.1.infos, messages := r2.2.1.messages, summaryWarn := r2.2.1.warnings != 0, summaryInfo := r2.2.1.infos != 0, fault := none }

/-! ## Concrete data for witnesses and counterexamples -/

/-- Witness data for C9: a type whose own optional options declare a
pattern for "status" that the global base options also declare. -/
def wYamlC9 : YamlNeedTypeDecl :=
  { title := "Feature"
    pfx := none
    tags := none
    parts := none
    mandatory_options := none
    optional_options := some [("status", "^own$")]
    mandatory_links := none
    optional_links := none
    color := none
    style := none }

/-- Witness checks: a local and a graph check that log nothing. -/
def wLocalA : LocalCheck := { name := "check_a", run := fun _ => ([], none) }

def wGraphG : GraphCheck := { name := "check_g", run := fun _ => ([], none) }

/-- A local check that logs one warning and then raises an uncaught
exception on every item. -/
def wLocalBoom : LocalCheck :=
  { name := "check_boom", run := fun _ => ([LogEvent.warn "w1"], some "RuntimeError") }

/-- A local check that reports a violation through the log and returns. -/
def wLocalWarn : LocalCheck :=
  { name := "check_warn", run := fun _ => ([LogEvent.warn "w1"], none) }

/-- A graph check that logs one info event. -/
def wGraphInfo : GraphCheck :=
  { name := "check_info", run := fun _ => ([LogEvent.info "i1"], none) }

def wItemInt : Item := { id := "SPEC_1", type := "spec", is_external := false }

def wItemExt : Item := { id := "EXT_1", type := "spec", is_external := true }

def wCfg : Config :=
  { needs_types := [], score_metamodel_checks := "", local_checks := [wLocalWarn], graph_checks := [wGraphInfo] }

def wCfgBoom : Config :=
  { needs_types := [], score_metamodel_checks := "", local_checks := [wLocalBoom], graph_checks := [wGraphInfo] }

/-- A graph check that logs one warning and then raises an uncaught
exception. -/
def wGraphBoom : GraphCheck :=
  { name := "check_gboom", run := fun _ => ([LogEvent.warn "w1"], some "RuntimeError") }

def wCfgGBoom : Config :=
  { needs_types := [], score_metamodel_checks := "", local_checks := [wLocalWarn], graph_checks := [wGraphBoom] }

/-- C1 failing input: a registry with one type whose mandatory link option
holds one raw string entry naming the type itself. -/
def c1Type : CfgNeedType :=
  { directive := "comp"
    mandatory_links := some [("implements", LinkVal.str "comp")]
    optional_links := some [] }

def c1Config : Config :=
  { needs_types := [c1Type], score_metamodel_checks := "", local_checks := [], graph_checks := [] }

/-- Witness type for C7: one declared type with an id constraint. -/
def wT7 : ScoreNeedType :=
  { directive := "feat", title := "Feature", pfx := "feat__", tags := [], parts := 3, mandatory_options := [("id", "^feat__[0-9a-z_]+$")], optional_options := [], mandatory_links := [], optional_links := [], color := none, style := none }

/-- C2 counterexample input: a type whose mandatory link field names the
declared type capability concretely (no wildcard sigil). -/
def cex2Type : ScoreNeedType :=
  { directive := "comp", title := "Component", pfx := "comp__", tags := [], parts := 3, mandatory_options := [], optional_options := [], mandatory_links := [("implements", "capability")], optional_links := [], color := none, style := none }

def cex2Cap : ScoreNeedType :=
  { directive := "capability", title := "Capability", pfx := "cap__", tags := [], parts := 3, mandatory_options := [("id", "^cap__[0-9a-z_]+$")], optional_options := [], mandatory_links := [], optional_links := [], color := none, style := none }

/-- C10 witness: a type whose mandatory link specifier holds two wildcard
entries. -/
def wTDup : ScoreNeedType :=
  { directive := "bad", title := "Bad", pfx := "bad__", tags := [], parts := 3, mandatory_options := [], optional_options := [], mandatory_links := [("implements", "^a.*, ^b.*")], optional_links := [], color := none, style := none }

/-- C10 witness: a well-formed type processed before the duplicate one. -/
def wTGood : ScoreNeedType :=
  { directive := "good", title := "Good", pfx := "good__", tags := [], parts := 3, mandatory_options := [("id", "^good__[0-9a-z_]+$")], optional_options := [], mandatory_links := [], optional_links := [], color := none, style := none }

/-- C10 witness: a second constrained type processed between wTGood and
the duplicate one, so the trigger has two constrained predecessors. -/
def wTGood2 : ScoreNeedType :=
  { directive := "good2", title := "Good2", pfx := "good2__", tags := [], parts := 3, mandatory_options := [("id", "^good2__[0-9a-z_]+$")], optional_options := [], mandatory_links := [], optional_links := [], color := none, style := none }

/-! ## Theorems: the dict embedding -/

theorem dictGet_isSome_eq_contains {α : Type} (d : List (String × α))
    (k : String) : (dictGet d k).isSome = dictContains d k := by
  induction d with
  | nil => rfl
  | cons p rest ih =>
    by_cases h : p.1 == k <;> simp [dictGet, dictContains, h, ih]

theorem dictGet_append_left {α : Type} {a : List (String × α)} {k : String}
    {w : α} (c : List (String × α)) (h : dictGet a k = some w) :
    dictGet (a ++ c) k = some w := by
  induction a with
  | nil => simp [dictGet] at h
  | cons p rest ih =>
    by_cases hp : p.1 == k <;> simp_all [dictGet]

theorem dictGet_append_right {α : Type} {a : List (String × α)} {k : String}
    (c : List (String × α)) (h : dictGet a k = none) :
    dictGet (a ++ c) k = dictGet c k := by
  induction a with
  | nil => simp
  | cons p rest ih =>
    by_cases hp : p.1 == k <;> simp_all [dictGet]

theorem dictGet_unionMap {α : Type} (b : List (String × α)) :
    ∀ (a : List (String × α)) (k : String) (w : α),
      dictContains a k = true → dictGet b k = some w →
      dictGet (a.map (fun p =>
        match dictGet b p.1 with
        | some v => (p.1, v)
        | none => p)) k = some w := by
  intro a
  induction a with
  | nil => intro k w hk _; simp [dictContains] at hk
  | cons p rest ih =>
    intro k w hk hb
    by_cases hp : p.1 == k
    · have hpk : p.1 = k := by simpa using hp
      subst hpk
      simp [dictGet, hb]
    · have hk' : dictContains rest k = true := by
        simp only [dictContains, Bool.or_eq_true] at hk
        rcases hk with hk | hk
        · exact absurd hk hp
        · exact hk
      have hkey : (match dictGet b p.1 with
          | some v => (p.1, v)
          | none => p).1 = p.1 := by
        cases dictGet b p.1 <;> rfl
      simp only [List.map_cons, dictGet, hkey]
      rw [if_neg hp]
      exact ih k w hk' hb

theorem dictGet_dictUnion_of_contains {α : Type} {a b : List (String × α)}
    {k : String} {w : α}
    (ha : dictContains a k = true) (hb : dictGet b k = some w) :
    dictGet (dictUnion a b) k = some w := by
  unfold dictUnion
  exact dictGet_append_left _ (dictGet_unionMap b a k w ha hb)

theorem dictContains_append {α : Type} (a b : List (String × α)) (k : String) :
    dictContains (a ++ b) k = (dictContains a k || dictContains b k) := by
  induction a with
  | nil => simp [dictContains]
  | cons p rest ih => simp [dictContains, ih, Bool.or_assoc]

theorem dictContains_dictSet_self {α : Type} (d : List (String × α))
    (k : String) (v : α) : dictContains (dictSet d k v) k = true := by
  unfold dictSet
  split
  next h =>
    induction d with
    | nil => simp [dictContains] at h
    | cons p rest ih =>
      by_cases hp : p.1 == k
      · simp [dictContains, hp]
      · simp only [dictContains, Bool.or_eq_true] at h
        rcases h with h | h
        · exact absurd h hp
        · simp only [List.map_cons, dictContains]
          rw [if_neg hp]
          simp only [Bool.or_eq_true]
          exact Or.inr (by simpa using ih h)
  next h =>
    rw [dictContains_append]
    simp [dictContains]

theorem mem_dedupFirst : ∀ (l : List String) (x : String),
    x ∈ dedupFirst l ↔ x ∈ l := by
  intro l
  induction l with
  | nil => intro x; simp [dedupFirst]
  | cons n rest ih =>
    intro x
    simp only [dedupFirst, List.mem_cons, List.mem_filter]
    constructor
    · rintro (rfl | ⟨hx, _⟩)
      · exact Or.inl rfl
      · exact Or.inr ((ih x).mp hx)
    · rintro (rfl | hx)
      · exact Or.inl rfl
      · by_cases hxn : x = n
        · exact Or.inl hxn
        · refine Or.inr ⟨(ih x).mpr hx, ?_⟩
          simp [hxn]

/-! ## Theorems: C8 and C9 (yaml_parser) -/

/-- C8: For every declared type, the parsed TypeDefinition's mandatory
fields always contain an `id` pattern: an explicit `id` mandatory option is
kept, otherwise a pattern derived from the type's prefix (itself defaulted
from the directive name when absent) is inserted. -/
theorem c8_id_pattern_always_present (directive_name : String)
    (yaml_data : YamlNeedTypeDecl) (global_base_opts : List (String × String)) :
    dictGet (_parse_need_type directive_name yaml_data global_base_opts).mandatory_options
        "id" =
      some (match dictGet (yaml_data.mandatory_options.getD []) "id" with
            | some p => p
            | none =>
              "^" ++ (YamlNeedTypeDecl.pfx yaml_data).getD (directive_name ++ "__")
                ++ "[0-9a-z_]+$") := by
  cases h : dictContains (yaml_data.mandatory_options.getD []) "id" with
  | true =>
    have hs : (dictGet (yaml_data.mandatory_options.getD []) "id").isSome = true := by
      rw [dictGet_isSome_eq_contains]; exact h
    obtain ⟨p, hp⟩ := Option.isSome_iff_exists.mp hs
    simp [_parse_need_type, h, hp]
  | false =>
    have hn : dictGet (yaml_data.mandatory_options.getD []) "id" = none := by
      have h2 := dictGet_isSome_eq_contains (yaml_data.mandatory_options.getD []) "id"
      rw [h] at h2
      exact Option.not_isSome_iff_eq_none.mp (by simp [h2])
    simp only [_parse_need_type, h, hn, Bool.false_eq_true, if_false, dictSet]
    rw [dictGet_append_right _ hn]
    rfl

/-- C9: When a type's own optional options share a field name with the
globally declared base optional options, the parsed TypeDefinition keeps
the global base pattern for that field, not the type's own declared pattern
(the merge is right-biased toward the global set). -/
theorem c9_global_base_wins (directive_name : String)
    (yaml_data : YamlNeedTypeDecl) (global_base_opts : List (String × String))
    (k w : String)
    (hk : dictContains (yaml_data.optional_options.getD []) k = true)
    (hw : dictGet global_base_opts k = some w) :
    dictGet (_parse_need_type directive_name yaml_data global_base_opts).optional_options
      k = some w := by
  cases h : dictContains (yaml_data.mandatory_options.getD []) "id" <;>
    simp only [_parse_need_type, h, Bool.false_eq_true, if_true, if_false] <;>
    exact dictGet_dictUnion_of_contains hk hw

theorem c9_global_base_wins_witness :
    dictGet (_parse_need_type "feat" wYamlC9 [("status", "^glob$")]).optional_options
      "status" = some "^glob$" :=
  c9_global_base_wins "feat" wYamlC9 [("status", "^glob$")] "status" "^glob$"
    (by rfl) (by rfl)

/-! ## Theorems: C4 (_resolve_linkable_types) -/

/-- C4: resolving a link specifier splits on commas and trims each entry;
a wildcard entry is kept unchanged as a pattern, an entry naming a declared
type yields a concrete reference to that type's registry entry, and an
entry naming no declared type yields no output entry plus exactly one
configuration-error log line, with resolution continuing for the remaining
entries. -/
theorem c4_resolve_characterisation (link_name link_value : String)
    (current_need_type : CfgNeedType) (needs_types : List CfgNeedType) :
    (_resolve_linkable_types link_name link_value current_need_type needs_types).1 =
      ((pySplit link_value ',').map pyStrip).filterMap (fun v =>
        if pyStartswith v "^" then some (LinkEntry.pattern v)
        else
          match needsTypesDictGet needs_types v with
          | none => none
          | some t => some (LinkEntry.ref t.directive)) ∧
    (_resolve_linkable_types link_name link_value current_need_type needs_types).2 =
      ((pySplit link_value ',').map pyStrip).filterMap (fun v =>
        if pyStartswith v "^" then none
        else
          match needsTypesDictGet needs_types v with
          | none => some (unknownTypeMsg (CfgNeedType.directive current_need_type)
              link_name v)
          | some _ => none) := by
  have key : ∀ (vs : List String) (acc : List LinkEntry × List String),
      vs.foldl
        (fun acc v =>
          if pyStartswith v "^" then (acc.1 ++ [LinkEntry.pattern v], acc.2)
          else
            match needsTypesDictGet needs_types v with
            | none =>
              (acc.1,
                acc.2 ++ [unknownTypeMsg (CfgNeedType.directive current_need_type)
                  link_name v])
            | some target_need_type =>
              (acc.1 ++ [LinkEntry.ref target_need_type.directive], acc.2))
        acc =
      (acc.1 ++ vs.filterMap (fun v =>
          if pyStartswith v "^" then some (LinkEntry.pattern v)
          else
            match needsTypesDictGet needs_types v with
            | none => none
            | some t => some (LinkEntry.ref t.directive)),
        acc.2 ++ vs.filterMap (fun v =>
          if pyStartswith v "^" then none
          else
            match needsTypesDictGet needs_types v with
            | none => some (unknownTypeMsg (CfgNeedType.directive current_need_type)
                link_name v)
            | some _ => none)) := by
    intro vs
    induction vs with
    | nil => intro acc; simp
    | cons v vs ih =>
      intro acc
      cases hv : pyStartswith v "^" with
      | true =>
        simp only [List.foldl_cons, List.filterMap_cons, hv, if_true]
        rw [ih]
        simp
      | false =>
        cases hg : needsTypesDictGet needs_types v with
        | none =>
          simp only [List.foldl_cons, List.filterMap_cons, hv, hg,
            Bool.false_eq_true, if_false]
          rw [ih]
          simp
        | some t =>
          simp only [List.foldl_cons, List.filterMap_cons, hv, hg,
            Bool.false_eq_true, if_false]
          rw [ih]
          simp
  unfold _resolve_linkable_types
  rw [key]
  simp

/-! ## Theorems: C3 (parse_checks_filter) -/

/-- C3: the enabled-rule filter splits on commas and trims each name; the
empty string yields the all-enabled result; a non-empty string whose every
listed name is registered yields exactly those names; a non-empty string
with an unregistered name fails fatally with a configuration error whose
message lists all valid check names (every registered local or graph check
name is in that list). -/
theorem c3_filter_resolution (filterStr : String)
    (local_checks : List LocalCheck) (graph_checks : List GraphCheck) :
    (parse_checks_filter "" local_checks graph_checks = .ok [] ∧
      ∀ name, isCheckEnabled [] name = true) ∧
    (filterStr ≠ "" →
      ((∀ c ∈ (pySplit filterStr ',').map pyStrip,
          c ∈ allCheckNames local_checks graph_checks) →
        parse_checks_filter filterStr local_checks graph_checks =
          .ok ((pySplit filterStr ',').map pyStrip)) ∧
      (∀ bad, ((pySplit filterStr ',').map pyStrip).find?
            (fun c => !(allCheckNames local_checks graph_checks).contains c) =
            some bad →
        parse_checks_filter filterStr local_checks graph_checks =
          .error (checksFilterError bad (allCheckNames local_checks graph_checks)))) ∧
    (∀ c ∈ local_checks, c.name ∈ allCheckNames local_checks graph_checks) ∧
    (∀ g ∈ graph_checks, g.name ∈ allCheckNames local_checks graph_checks) := by
  refine ⟨⟨rfl, fun name => rfl⟩, ?_, ?_, ?_⟩
  · intro hne
    constructor
    · intro hall
      have hfind : ((pySplit filterStr ',').map pyStrip).find?
          (fun c => !(allCheckNames local_checks graph_checks).contains c) = none := by
        rw [List.find?_eq_none]
        intro x hx
        have hc : (allCheckNames local_checks graph_checks).contains x = true :=
          List.elem_eq_true_of_mem (hall x hx)
        simp only [hc, Bool.not_true, Bool.false_eq_true, not_false_eq_true]
      simp only [parse_checks_filter, if_neg hne, hfind]
    · intro bad hbad
      simp only [parse_checks_filter, if_neg hne, hbad]
  · intro c hc
    unfold allCheckNames
    rw [mem_dedupFirst]
    exact List.mem_append_left _ (List.mem_map_of_mem _ hc)
  · intro g hg
    unfold allCheckNames
    rw [mem_dedupFirst]
    exact List.mem_append_right _ (List.mem_map_of_mem _ hg)

theorem c3_filter_resolution_witness :
    parse_checks_filter "" [wLocalA] [wGraphG] = .ok [] ∧
    parse_checks_filter " check_a ,check_g" [wLocalA] [wGraphG] =
      .ok ["check_a", "check_g"] ∧
    parse_checks_filter "nope" [wLocalA] [wGraphG] =
      .error (checksFilterError "nope" ["check_a", "check_g"]) := by
  refine ⟨(c3_filter_resolution "" [wLocalA] [wGraphG]).1.1, ?_, ?_⟩
  · have h := ((c3_filter_resolution " check_a ,check_g" [wLocalA] [wGraphG]).2.1
      (by decide)).1 (by decide)
    rw [h]
    rfl
  · have h := ((c3_filter_resolution "nope" [wLocalA] [wGraphG]).2.1
      (by decide)).2 "nope" (by rfl)
    rw [h]
    rfl

/-! ## Theorems: the runner phases -/

theorem runLocalChecksForNeed_trace (need : Item) :
    ∀ (checks : List LocalCheck) (st : LogState),
      ∀ pr ∈ (runLocalChecksForNeed checks need st).1, pr.2 = need := by
  intro checks
  induction checks with
  | nil => intro st pr hpr; simp [runLocalChecksForNeed] at hpr
  | cons c cs ih =>
    intro st pr hpr
    rw [runLocalChecksForNeed] at hpr
    cases hr : (c.run need).2 with
    | some e =>
      simp only [hr] at hpr
      rcases List.mem_singleton.mp hpr with rfl
      rfl
    | none =>
      simp only [hr] at hpr
      rcases List.mem_cons.mp hpr with rfl | hmem
      · rfl
      · exact ih _ pr hmem

theorem runLocalPhase_trace (checks : List LocalCheck) :
    ∀ (ns : List Item) (st : LogState),
      ∀ pr ∈ (runLocalPhase checks ns st).1, pr.2 ∈ ns := by
  intro ns
  induction ns with
  | nil => intro st pr hpr; simp [runLocalPhase] at hpr
  | cons n ns ih =>
    intro st pr hpr
    rw [runLocalPhase] at hpr
    cases hf : (runLocalChecksForNeed checks n st).2.2 with
    | some e =>
      simp only [hf] at hpr
      have := runLocalChecksForNeed_trace n checks st pr hpr
      simp [this]
    | none =>
      simp only [hf] at hpr
      rcases List.mem_append.mp hpr with h | h
      · have := runLocalChecksForNeed_trace n checks st pr h
        simp [this]
      · exact List.mem_cons_of_mem _ (ih _ pr h)

theorem runGraphPhase_complete (allNeeds : List Item) :
    ∀ (cs : List GraphCheck) (st : LogState),
      (runGraphPhase allNeeds cs st).2.2 = none →
      (runGraphPhase allNeeds cs st).1 =
        cs.map (fun c => (c.name, allNeeds)) := by
  intro cs
  induction cs with
  | nil => intro st _; rfl
  | cons c cs ih =>
    intro st hnone
    rw [runGraphPhase] at hnone ⊢
    cases hr : (c.run allNeeds).2 with
    | some e => simp [hr] at hnone
    | none =>
      simp only [hr] at hnone ⊢
      rw [List.map_cons]
      exact congrArg _ (ih _ hnone)

theorem runLocalChecksForNeed_fault (need : Item) :
    ∀ (checks : List LocalCheck) (st : LogState),
      (∃ c ∈ checks, ((c.run need).2).isSome) →
      ((runLocalChecksForNeed checks need st).2.2).isSome := by
  intro checks
  induction checks with
  | nil => intro st h; rcases h with ⟨c, hc, _⟩; simp at hc
  | cons c cs ih =>
    intro st h
    rw [runLocalChecksForNeed]
    cases hr : (c.run need).2 with
    | some e => simp [hr]
    | none =>
      simp only [hr]
      rcases h with ⟨c0, hc0, hf⟩
      rcases List.mem_cons.mp hc0 with rfl | hmem
      · rw [hr] at hf; simp at hf
      · exact ih _ ⟨c0, hmem, hf⟩

theorem runLocalPhase_fault (checks : List LocalCheck) :
    ∀ (ns : List Item) (st : LogState),
      (∃ n ∈ ns, ∃ c ∈ checks, ((c.run n).2).isSome) →
      ((runLocalPhase checks ns st).2.2).isSome := by
  intro ns
  induction ns with
  | nil => intro st h; rcases h with ⟨n, hn, _⟩; simp at hn
  | cons n ns ih =>
    intro st h
    rw [runLocalPhase]
    cases hf : (runLocalChecksForNeed checks n st).2.2 with
    | some e => simp [hf]
    | none =>
      simp only [hf]
      rcases h with ⟨n0, hn0, hc⟩
      rcases List.mem_cons.mp hn0 with rfl | hmem
      · have := runLocalChecksForNeed_fault n0 checks st hc
        rw [hf] at this
        simp at this
      · exact ih _ ⟨n0, hmem, hc⟩

theorem runLocalChecksForNeed_nofault (need : Item) :
    ∀ (checks : List LocalCheck) (st : LogState),
      (∀ c ∈ checks, (c.run need).2 = none) →
      ((runLocalChecksForNeed checks need st).2.2) = none := by
  intro checks
  induction checks with
  | nil => intro st _; rfl
  | cons c cs ih =>
    intro st h
    rw [runLocalChecksForNeed]
    simp only [h c (List.mem_cons_self c cs)]
    exact ih _ (fun c0 hc0 => h c0 (List.mem_cons_of_mem _ hc0))

theorem runLocalPhase_nofault (checks : List LocalCheck) :
    ∀ (ns : List Item) (st : LogState),
      (∀ n ∈ ns, ∀ c ∈ checks, (c.run n).2 = none) →
      ((runLocalPhase checks ns st).2.2) = none := by
  intro ns
  induction ns with
  | nil => intro st _; rfl
  | cons n ns ih =>
    intro st h
    rw [runLocalPhase]
    have hf := runLocalChecksForNeed_nofault n checks st
      (fun c hc => h n (List.mem_cons_self n ns) c hc)
    simp only [hf]
    exact ih _ (fun n0 hn0 c hc => h n0 (List.mem_cons_of_mem _ hn0) c hc)

theorem runGraphPhase_nofault (allNeeds : List Item) :
    ∀ (cs : List GraphCheck) (st : LogState),
      (∀ c ∈ cs, (c.run allNeeds).2 = none) →
      ((runGraphPhase allNeeds cs st).2.2) = none := by
  intro cs
  induction cs with
  | nil => intro st _; rfl
  | cons c cs ih =>
    intro st h
    rw [runGraphPhase]
    simp only [h c (List.mem_cons_self c cs)]
    exact ih _ (fun c0 hc0 => h c0 (List.mem_cons_of_mem _ hc0))

theorem runGraphPhase_fault (allNeeds : List Item) :
    ∀ (cs : List GraphCheck) (st : LogState),
      (∃ c ∈ cs, ((c.run allNeeds).2).isSome) →
      ((runGraphPhase allNeeds cs st).2.2).isSome := by
  intro cs
  induction cs with
  | nil => intro st h; rcases h with ⟨c, hc, _⟩; simp at hc
  | cons c cs ih =>
    intro st h
    rw [runGraphPhase]
    cases hr : (c.run allNeeds).2 with
    | some e => simp [hr]
    | none =>
      simp only [hr]
      rcases h with ⟨c0, hc0, hf⟩
      rcases List.mem_cons.mp hc0 with rfl | hmem
      · rw [hr] at hf; simp at hf
      · exact ih _ ⟨c0, hmem, hf⟩

/-! ## Theorems: C5 (local checks see only internal items, graph checks
see the full collection) -/

/-- C5: during one run every local rule invocation receives only items
whose is_external flag is false, and, when the run completes without fault,
every enabled graph rule is invoked exactly once with the full item
collection (external items included). -/
theorem c5_local_internal_graph_full (cfg : Config) (needs : List Item)
    (fl : List String)
    (hparse : parse_checks_filter cfg.score_metamodel_checks cfg.local_checks
      cfg.graph_checks = .ok fl) :
    (∀ pr ∈ (_run_checks cfg needs false).localTrace,
      pr.2.is_external = false) ∧
    ((_run_checks cfg needs false).fault = none →
      (_run_checks cfg needs false).graphTrace =
        (cfg.graph_checks.filter (fun c => isCheckEnabled fl c.name)).map
          (fun c => (c.name, needs))) := by
  rw [_run_checks]
  simp only [Bool.false_eq_true, if_false]
  cases hpost : postprocess_need_links cfg.needs_types with
  | error e =>
    constructor
    · intro pr hpr
      simp [initialOutput] at hpr
    · intro hf
      simp [initialOutput] at hf
  | ok p =>
    obtain ⟨types2, rerrs⟩ := p
    rw [hparse]
    have htr : ∀ pr ∈ (runLocalPhase
        (cfg.local_checks.filter (fun c => isCheckEnabled fl c.name))
        (needs.filter (fun n => n.is_external == false))
        { warnings := 0, infos := 0, messages := [] }).1,
        pr.2.is_external = false := by
      intro pr hpr
      have hmem := runLocalPhase_trace _ _ _ pr hpr
      have := (List.mem_filter.mp hmem).2
      simpa using this
    cases hloc : (runLocalPhase
        (cfg.local_checks.filter (fun c => isCheckEnabled fl c.name))
        (needs.filter (fun n => n.is_external == false))
        { warnings := 0, infos := 0, messages := [] }).2.2 with
    | some e =>
      simp only [hloc]
      exact ⟨htr, fun hf => by simp at hf⟩
    | none =>
      simp only [hloc]
      cases hg : (runGraphPhase needs
          (cfg.graph_checks.filter (fun c => isCheckEnabled fl c.name))
          (runLocalPhase
            (cfg.local_checks.filter (fun c => isCheckEnabled fl c.name))
            (needs.filter (fun n => n.is_external == false))
            { warnings := 0, infos := 0, messages := [] }).2.1).2.2 with
      | some e =>
        simp only [hg]
        exact ⟨htr, fun hf => by simp at hf⟩
      | none =>
        simp only [hg]
        refine ⟨htr, fun _ => ?_⟩
        exact runGraphPhase_complete needs _ _ hg

theorem c5_local_internal_graph_full_witness :
    (∀ pr ∈ (_run_checks wCfg [wItemInt, wItemExt] false).localTrace,
      pr.2.is_external = false) ∧
    ((_run_checks wCfg [wItemInt, wItemExt] false).fault = none →
      (_run_checks wCfg [wItemInt, wItemExt] false).graphTrace =
        (wCfg.graph_checks.filter
          (fun c => isCheckEnabled [] c.name)).map
            (fun c => (c.name, [wItemInt, wItemExt]))) :=
  c5_local_internal_graph_full wCfg [wItemInt, wItemExt] [] (by rfl)

/-! ## Theorems: C6 (an uncaught rule fault aborts the run) -/

/-- C6: if an enabled local rule raises an uncaught exception on a
non-external item, or an enabled graph rule raises one on the full
collection, the runner does not catch it: the run carries the fault and no
summary is emitted (for a local fault the graph phase never runs at all);
whereas when no enabled rule faults (rules only reporting violations
through the log), the run completes with no fault and emits the summaries
from the counters. -/
theorem c6_rule_fault_aborts (cfg : Config) (needs : List Item)
    (fl : List String)
    (hparse : parse_checks_filter cfg.score_metamodel_checks cfg.local_checks
      cfg.graph_checks = .ok fl) :
    ((∃ it ∈ needs, it.is_external = false ∧
        ∃ c ∈ cfg.local_checks, isCheckEnabled fl c.name = true ∧
          ((c.run it).2).isSome) →
      ((_run_checks cfg needs false).fault).isSome ∧
      (_run_checks cfg needs false).graphTrace = [] ∧
      (_run_checks cfg needs false).summaryWarn = false ∧
      (_run_checks cfg needs false).summaryInfo = false) ∧
    ((∃ p, postprocess_need_links cfg.needs_types = .ok p) →
      (∀ it ∈ needs, it.is_external = false →
        ∀ c ∈ cfg.local_checks, isCheckEnabled fl c.name = true →
          (c.run it).2 = none) →
      (∃ g ∈ cfg.graph_checks, isCheckEnabled fl g.name = true ∧
        ((g.run needs).2).isSome) →
      ((_run_checks cfg needs false).fault).isSome ∧
      (_run_checks cfg needs false).summaryWarn = false ∧
      (_run_checks cfg needs false).summaryInfo = false) ∧
    ((∃ p, postprocess_need_links cfg.needs_types = .ok p) →
      (∀ it ∈ needs, it.is_external = false →
        ∀ c ∈ cfg.local_checks, isCheckEnabled fl c.name = true →
          (c.run it).2 = none) →
      (∀ g ∈ cfg.graph_checks, isCheckEnabled fl g.name = true →
        (g.run needs).2 = none) →
      (_run_checks cfg needs false).fault = none ∧
      (_run_checks cfg needs false).summaryWarn =
        ((_run_checks cfg needs false).warnings != 0) ∧
      (_run_checks cfg needs false).summaryInfo =
        ((_run_checks cfg needs false).infos != 0)) := by
  rw [_run_checks]
  simp only [Bool.false_eq_true, if_false]
  refine ⟨?_, ?_, ?_⟩
  · intro hex
    cases hpost : postprocess_need_links cfg.needs_types with
    | error e => simp [initialOutput]
    | ok p =>
      obtain ⟨types2, rerrs⟩ := p
      rw [hparse]
      have hfault : ((runLocalPhase
          (cfg.local_checks.filter (fun c => isCheckEnabled fl c.name))
          (needs.filter (fun n => n.is_external == false))
          { warnings := 0, infos := 0, messages := [] }).2.2).isSome := by
        apply runLocalPhase_fault
        obtain ⟨it, hit, hext, c, hc, hen, hs⟩ := hex
        refine ⟨it, ?_, c, ?_, hs⟩
        · exact List.mem_filter.mpr ⟨hit, by simp [hext]⟩
        · exact List.mem_filter.mpr ⟨hc, hen⟩
      obtain ⟨e, he⟩ := Option.isSome_iff_exists.mp hfault
      simp only [he]
      simp
  · intro hpost hlocal hgf
    obtain ⟨p, hp⟩ := hpost
    obtain ⟨types2, rerrs⟩ := p
    rw [hp, hparse]
    have hl : ((runLocalPhase
        (cfg.local_checks.filter (fun c => isCheckEnabled fl c.name))
        (needs.filter (fun n => n.is_external == false))
        { warnings := 0, infos := 0, messages := [] }).2.2) = none := by
      apply runLocalPhase_nofault
      intro n hn c hc
      have hn2 := List.mem_filter.mp hn
      have hc2 := List.mem_filter.mp hc
      exact hlocal n hn2.1 (by simpa using hn2.2) c hc2.1 hc2.2
    simp only [hl]
    have hfault : ((runGraphPhase needs
        (cfg.graph_checks.filter (fun c => isCheckEnabled fl c.name))
        (runLocalPhase
          (cfg.local_checks.filter (fun c => isCheckEnabled fl c.name))
          (needs.filter (fun n => n.is_external == false))
          { warnings := 0, infos := 0, messages := [] }).2.1).2.2).isSome := by
      apply runGraphPhase_fault
      obtain ⟨g, hg, hen, hs⟩ := hgf
      exact ⟨g, List.mem_filter.mpr ⟨hg, hen⟩, hs⟩
    obtain ⟨e, he⟩ := Option.isSome_iff_exists.mp hfault
    simp only [he]
    simp
  · intro hpost hlocal hgraph
    obtain ⟨p, hp⟩ := hpost
    obtain ⟨types2, rerrs⟩ := p
    rw [hp, hparse]
    have hl : ((runLocalPhase
        (cfg.local_checks.filter (fun c => isCheckEnabled fl c.name))
        (needs.filter (fun n => n.is_external == false))
        { warnings := 0, infos := 0, messages := [] }).2.2) = none := by
      apply runLocalPhase_nofault
      intro n hn c hc
      have hn2 := List.mem_filter.mp hn
      have hc2 := List.mem_filter.mp hc
      exact hlocal n hn2.1 (by simpa using hn2.2) c hc2.1 hc2.2
    simp only [hl]
    have hg : ((runGraphPhase needs
        (cfg.graph_checks.filter (fun c => isCheckEnabled fl c.name))
        (runLocalPhase
          (cfg.local_checks.filter (fun c => isCheckEnabled fl c.name))
          (needs.filter (fun n => n.is_external == false))
          { warnings := 0, infos := 0, messages := [] }).2.1).2.2) = none := by
      apply runGraphPhase_nofault
      intro c hc
      have hc2 := List.mem_filter.mp hc
      exact hgraph c hc2.1 hc2.2
    simp only [hg]
    simp

theorem c6_rule_fault_aborts_witness :
    (((_run_checks wCfgBoom [wItemInt] false).fault).isSome ∧
      (_run_checks wCfgBoom [wItemInt] false).graphTrace = [] ∧
      (_run_checks wCfgBoom [wItemInt] false).summaryWarn = false ∧
      (_run_checks wCfgBoom [wItemInt] false).summaryInfo = false) ∧
    (((_run_checks wCfgGBoom [wItemInt] false).fault).isSome ∧
      (_run_checks wCfgGBoom [wItemInt] false).summaryWarn = false ∧
      (_run_checks wCfgGBoom [wItemInt] false).summaryInfo = false) ∧
    ((_run_checks wCfg [wItemInt] false).fault = none ∧
      (_run_checks wCfg [wItemInt] false).summaryWarn =
        ((_run_checks wCfg [wItemInt] false).warnings != 0) ∧
      (_run_checks wCfg [wItemInt] false).summaryInfo =
        ((_run_checks wCfg [wItemInt] false).infos != 0)) := by
  refine ⟨?_, ?_, ?_⟩
  · exact (c6_rule_fault_aborts wCfgBoom [wItemInt] [] (by rfl)).1
      ⟨wItemInt, by simp, by rfl, wLocalBoom, by simp [wCfgBoom], by rfl, by rfl⟩
  · exact (c6_rule_fault_aborts wCfgGBoom [wItemInt] [] (by rfl)).2.1
      ⟨([], []), by rfl⟩
      (fun it hit hext c hc hen => by
        simp [wCfgGBoom] at hc
        subst hc
        rfl)
      ⟨wGraphBoom, by simp [wCfgGBoom], by rfl, by rfl⟩
  · exact (c6_rule_fault_aborts wCfg [wItemInt] [] (by rfl)).2.2
      ⟨([], []), by rfl⟩
      (fun it hit hext c hc hen => by
        simp [wCfg] at hc
        subst hc
        rfl)
      (fun g hg hen => by
        simp [wCfg] at hg
        subst hg
        rfl)

/-! ## Theorems: C1 (the second run is not idempotent: it faults) -/

/-- C1: the claim fails on the code and the spec states the intent. The
first run resolves the registry's link values in place (the mutation
survives the run inside the configuration), so the second invocation's link
postprocessing hits `assert isinstance(link_value, str)` on the already
resolved list and raises AssertionError: the second run aborts instead of
completing with results identical to the first. -/
theorem c1_second_run_asserts :
    (_run_checks c1Config [] false).fault = none ∧
    (_run_checks { c1Config with
        needs_types := (_run_checks c1Config [] false).needs_types }
      [] false).fault = some "AssertionError" := by
  exact ⟨by rfl, by rfl⟩

/-! ## Theorems: the schema emitter loops -/

theorem collectRegexValues_none_error_shape (kind field : String) :
    ∀ (vs : List String) (regexes targets : List (String × String))
      (errs : List String) (e : String),
      collectRegexValues kind none field vs regexes targets errs = .error e →
      e = "NameError" := by
  intro vs
  induction vs with
  | nil => intro r t er e h; simp [collectRegexValues] at h
  | cons v vs ih =>
    intro r t er e h
    rw [collectRegexValues] at h
    split at h
    · split at h
      · simp only [Except.error.injEq] at h
        exact h.symm
      · exact ih _ _ _ _ h
    · exact ih _ _ _ _ h

theorem collectRegexValues_none_dup (kind field : String) :
    ∀ (vs : List String) (regexes targets : List (String × String))
      (errs : List String),
      (2 ≤ (vs.filter (fun v => pyStartswith v "^")).length ∨
        (1 ≤ (vs.filter (fun v => pyStartswith v "^")).length ∧
          dictContains regexes field = true)) →
      collectRegexValues kind none field vs regexes targets errs =
        .error "NameError" := by
  intro vs
  induction vs with
  | nil =>
    intro r t er h
    simp at h
  | cons v vs ih =>
    intro r t er h
    rw [collectRegexValues]
    split
    next hv =>
      split
      next hc => rfl
      next hc =>
        apply ih
        right
        refine ⟨?_, dictContains_dictSet_self r field v⟩
        rcases h with h2 | ⟨h1, hcon⟩
        · simp only [List.filter_cons, hv, if_true, List.length_cons] at h2
          omega
        · exact absurd hcon hc
    next hv =>
      apply ih
      have hv2 : pyStartswith v "^" = false := by
        cases hvb : pyStartswith v "^" with
        | true => exact absurd hvb hv
        | false => rfl
      simpa only [List.filter_cons, hv2, Bool.false_eq_true, if_false] using h

theorem collectRegexValues_some_ok (kind field name : String) :
    ∀ (vs : List String) (regexes targets : List (String × String))
      (errs : List String),
      ∃ out, collectRegexValues kind (some name) field vs regexes targets errs =
        .ok out := by
  intro vs
  induction vs with
  | nil => intro r t er; exact ⟨(r, t, er), rfl⟩
  | cons v vs ih =>
    intro r t er
    rw [collectRegexValues]
    split
    next hv =>
      split
      next hc => exact ih _ _ _
      next hc => exact ih _ _ _
    next hv => exact ih _ _ _

theorem collectRegexValues_some_errs_mono (kind field name : String) :
    ∀ (vs : List String) (regexes targets : List (String × String))
      (errs : List String) (out : LinkScanState),
      collectRegexValues kind (some name) field vs regexes targets errs =
        .ok out →
      ∀ x ∈ errs, x ∈ out.2.2 := by
  intro vs
  induction vs with
  | nil =>
    intro r t er out h x hx
    rw [collectRegexValues] at h
    simp only [Except.ok.injEq] at h
    rw [← h]
    exact hx
  | cons v vs ih =>
    intro r t er out h x hx
    rw [collectRegexValues] at h
    split at h
    next hv =>
      split at h
      next hc =>
        exact ih _ _ _ out h x (List.mem_append_left _ hx)
      next hc => exact ih _ _ _ out h x hx
    next hv => exact ih _ _ _ out h x hx

theorem collectRegexValues_some_dup_msg (kind field name : String) :
    ∀ (vs : List String) (regexes targets : List (String × String))
      (errs : List String) (out : LinkScanState),
      (2 ≤ (vs.filter (fun v => pyStartswith v "^")).length ∨
        (1 ≤ (vs.filter (fun v => pyStartswith v "^")).length ∧
          dictContains regexes field = true)) →
      collectRegexValues kind (some name) field vs regexes targets errs =
        .ok out →
      multipleRegexMsg kind field name ∈ out.2.2 := by
  intro vs
  induction vs with
  | nil => intro r t er out h _; simp at h
  | cons v vs ih =>
    intro r t er out hcount h
    rw [collectRegexValues] at h
    split at h
    next hv =>
      split at h
      next hc =>
        exact collectRegexValues_some_errs_mono kind field name vs _ _ _ out h _
          (List.mem_append_right er (List.mem_singleton.mpr rfl))
      next hc =>
        apply ih _ _ _ out _ h
        right
        refine ⟨?_, dictContains_dictSet_self r field v⟩
        rcases hcount with h2 | ⟨h1, hcon⟩
        · simp only [List.filter_cons, hv, if_true, List.length_cons] at h2
          omega
        · exact absurd hcon hc
    next hv =>
      apply ih _ _ _ out _ h
      have hv2 : pyStartswith v "^" = false := by
        cases hvb : pyStartswith v "^" with
        | true => exact absurd hvb hv
        | false => rfl
      simpa only [List.filter_cons, hv2, Bool.false_eq_true, if_false]
        using hcount

theorem collectLinkRegexes_none_error_shape (kind : String) :
    ∀ (links : List (String × String)) (regexes targets : List (String × String))
      (errs : List String) (e : String),
      collectLinkRegexes kind none links regexes targets errs = .error e →
      e = "NameError" := by
  intro links
  induction links with
  | nil => intro r t er e h; simp [collectLinkRegexes] at h
  | cons p rest ih =>
    obtain ⟨field, value⟩ := p
    intro r t er e h
    rw [collectLinkRegexes] at h
    split at h
    next e2 heq =>
      simp only [Except.error.injEq] at h
      rw [← h]
      exact collectRegexValues_none_error_shape kind field _ r t er e2 heq
    next st heq => exact ih _ _ _ _ h

theorem collectLinkRegexes_none_dup (kind : String) :
    ∀ (links : List (String × String)) (regexes targets : List (String × String))
      (errs : List String) (f val : String),
      (f, val) ∈ links → 2 ≤ wildcardCount val →
      collectLinkRegexes kind none links regexes targets errs =
        .error "NameError" := by
  intro links
  induction links with
  | nil => intro r t er f val hmem _; simp at hmem
  | cons p rest ih =>
    obtain ⟨field, value⟩ := p
    intro r t er f val hmem hw
    rw [collectLinkRegexes]
    rcases List.mem_cons.mp hmem with heq | hmem2
    · obtain ⟨rfl, rfl⟩ := Prod.mk.injEq .. ▸ heq
      rw [collectRegexValues_none_dup kind f ((pySplit val ',').map pyStrip)
        r t er (Or.inl hw)]
    · cases hcv : collectRegexValues kind none field
          ((pySplit value ',').map pyStrip) r t er with
      | error e2 =>
        rw [collectRegexValues_none_error_shape kind field _ r t er e2 hcv]
      | ok st =>
        obtain ⟨r2, t2, e2⟩ := st
        exact ih _ _ _ f val hmem2 hw

theorem collectLinkRegexes_some_ok (kind name : String) :
    ∀ (links : List (String × String)) (regexes targets : List (String × String))
      (errs : List String),
      ∃ out, collectLinkRegexes kind (some name) links regexes targets errs =
        .ok out := by
  intro links
  induction links with
  | nil => intro r t er; exact ⟨(r, t, er), rfl⟩
  | cons p rest ih =>
    obtain ⟨field, value⟩ := p
    intro r t er
    rw [collectLinkRegexes]
    obtain ⟨⟨r2, t2, e2⟩, hcv⟩ := collectRegexValues_some_ok kind field name
      ((pySplit value ',').map pyStrip) r t er
    rw [hcv]
    exact ih _ _ _

theorem collectLinkRegexes_some_errs_mono (kind name : String) :
    ∀ (links : List (String × String)) (regexes targets : List (String × String))
      (errs : List String) (out : LinkScanState),
      collectLinkRegexes kind (some name) links regexes targets errs = .ok out →
      ∀ x ∈ errs, x ∈ out.2.2 := by
  intro links
  induction links with
  | nil =>
    intro r t er out h x hx
    rw [collectLinkRegexes] at h
    simp only [Except.ok.injEq] at h
    rw [← h]
    exact hx
  | cons p rest ih =>
    obtain ⟨field, value⟩ := p
    intro r t er out h x hx
    rw [collectLinkRegexes] at h
    split at h
    next e2 heq => simp at h
    next r2 t2 e2 heq =>
      exact ih _ _ _ out h x
        (collectRegexValues_some_errs_mono kind field name _ r t er _ heq x hx)

theorem collectLinkRegexes_some_dup_msg (kind name : String) :
    ∀ (links : List (String × String)) (regexes targets : List (String × String))
      (errs : List String) (out : LinkScanState) (f val : String),
      (f, val) ∈ links → 2 ≤ wildcardCount val →
      collectLinkRegexes kind (some name) links regexes targets errs = .ok out →
      multipleRegexMsg kind f name ∈ out.2.2 := by
  intro links
  induction links with
  | nil => intro r t er out f val hmem _ _; simp at hmem
  | cons p rest ih =>
    obtain ⟨field, value⟩ := p
    intro r t er out f val hmem hw h
    rw [collectLinkRegexes] at h
    split at h
    next e2 heq => simp at h
    next r2 t2 e2 heq =>
      rcases List.mem_cons.mp hmem with heq2 | hmem2
      · obtain ⟨rfl, rfl⟩ := Prod.mk.injEq .. ▸ heq2
        have hin := collectRegexValues_some_dup_msg kind f name _ r t er
          (r2, t2, e2) (Or.inl hw) heq
        exact collectLinkRegexes_some_errs_mono kind name rest _ _ _ out h _ hin
      · exact ih _ _ _ out f val hmem2 hw h

/-! ## Theorems: emitNeedType and the emitter loop -/

theorem emitNeedType_ok_some {tn : Option String} {t : ScoreNeedType}
    {sOpt : Option TypeSchema} {errs : List String} {tn2 : Option String}
    (h : emitNeedType tn t = .ok (sOpt, errs, tn2)) (s : TypeSchema)
    (hs : sOpt = some s) :
    hasConstraints t = true ∧ tn2 = some t.directive ∧
      ∃ mr orx, s = mkTypeSchema t mr orx := by
  unfold emitNeedType at h
  split at h
  next hc =>
    split at h
    next e heq => simp at h
    next mr mt e1 heq =>
      split at h
      next e heq2 => simp at h
      next orx ot e12 heq2 =>
        simp only [Except.ok.injEq, Prod.mk.injEq] at h
        refine ⟨hc, h.2.2.symm, mr, orx, ?_⟩
        rw [hs] at h
        exact (Option.some_inj.mp h.1).symm
  next hc =>
    simp only [Except.ok.injEq, Prod.mk.injEq] at h
    rw [hs] at h
    simp at h

theorem emitNeedType_skip {tn : Option String} {t : ScoreNeedType}
    (hc : hasConstraints t = false) :
    emitNeedType tn t = .ok (none, [], tn) := by
  unfold emitNeedType
  split
  next hc2 => exact absurd hc2 (by simp [hc])
  next => rfl

theorem emitNeedType_none_dup (t : ScoreNeedType) (f val : String)
    (hc : hasConstraints t = true)
    (hmem : (f, val) ∈ t.mandatory_links ∨ (f, val) ∈ t.optional_links)
    (hw : 2 ≤ wildcardCount val) :
    emitNeedType none t = .error "NameError" := by
  unfold emitNeedType
  split
  next =>
    rcases hmem with hm | ho
    · rw [collectLinkRegexes_none_dup "mandatory" t.mandatory_links [] [] []
        f val hm hw]
    · cases h1 : collectLinkRegexes "mandatory" none t.mandatory_links [] [] [] with
      | error e =>
        rw [collectLinkRegexes_none_error_shape "mandatory" _ _ _ _ e h1]
      | ok st =>
        obtain ⟨mr, mt, e1⟩ := st
        dsimp only
        rw [collectLinkRegexes_none_dup "optional" t.optional_links [] [] e1
          f val ho hw]
  next hc2 => exact absurd hc hc2

theorem emitNeedType_some_ok (name : String) (t : ScoreNeedType) :
    ∃ sOpt errs n2, emitNeedType (some name) t = .ok (sOpt, errs, some n2) := by
  unfold emitNeedType
  split
  next =>
    obtain ⟨⟨mr, mt, e1⟩, h1⟩ := collectLinkRegexes_some_ok "mandatory" name
      t.mandatory_links [] [] []
    rw [h1]
    dsimp only
    obtain ⟨⟨orx, ot, e12⟩, h2⟩ := collectLinkRegexes_some_ok "optional" name
      t.optional_links [] [] e1
    rw [h2]
    exact ⟨some (mkTypeSchema t mr orx), e12, t.directive, rfl⟩
  next => exact ⟨none, [], name, rfl⟩

theorem emitNeedType_some_dup_msg (name : String) (t : ScoreNeedType)
    (f val : String) (hc : hasConstraints t = true)
    (hmem : (f, val) ∈ t.mandatory_links ∨ (f, val) ∈ t.optional_links)
    (hw : 2 ≤ wildcardCount val) :
    ∃ sOpt errs2, emitNeedType (some name) t =
        .ok (sOpt, errs2, some t.directive) ∧
      (multipleRegexMsg "mandatory" f name ∈ errs2 ∨
        multipleRegexMsg "optional" f name ∈ errs2) := by
  unfold emitNeedType
  split
  next =>
    obtain ⟨⟨mr, mt, e1⟩, h1⟩ := collectLinkRegexes_some_ok "mandatory" name
      t.mandatory_links [] [] []
    rw [h1]
    dsimp only
    obtain ⟨⟨orx, ot, e12⟩, h2⟩ := collectLinkRegexes_some_ok "optional" name
      t.optional_links [] [] e1
    rw [h2]
    refine ⟨some (mkTypeSchema t mr orx), e12, rfl, ?_⟩
    rcases hmem with hm | ho
    · left
      have hin := collectLinkRegexes_some_dup_msg "mandatory" name
        t.mandatory_links [] [] [] (mr, mt, e1) f val hm hw h1
      exact collectLinkRegexes_some_errs_mono "optional" name
        t.optional_links [] [] e1 (orx, ot, e12) h2 _ hin
    · right
      exact collectLinkRegexes_some_dup_msg "optional" name
        t.optional_links [] [] e1 (orx, ot, e12) f val ho hw h2
  next hc2 => exact absurd hc hc2

theorem write_sn_schemas_go_shape :
    ∀ (tn : Option String) (l : List ScoreNeedType) (schemas : List TypeSchema)
      (errs : List String),
      write_sn_schemas_go tn l = .ok (schemas, errs) →
      ∀ s ∈ schemas, ∃ t ∈ l, hasConstraints t = true ∧
        ∃ mr orx, s = mkTypeSchema t mr orx := by
  intro tn l
  induction l generalizing tn with
  | nil =>
    intro schemas errs h s hs
    rw [write_sn_schemas_go] at h
    simp only [Except.ok.injEq, Prod.mk.injEq] at h
    rw [← h.1] at hs
    simp at hs
  | cons t rest ih =>
    intro schemas errs h s hs
    rw [write_sn_schemas_go] at h
    split at h
    next e heq => simp at h
    next sOpt errs1 tn2 heq =>
      split at h
      next e heq2 => simp at h
      next schemas2 errs2 heq2 =>
        simp only [Except.ok.injEq, Prod.mk.injEq] at h
        rw [← h.1] at hs
        cases hso : sOpt with
        | none =>
          rw [hso] at hs
          obtain ⟨t0, ht0, hc0, hrest⟩ := ih tn2 schemas2 errs2 heq2 s hs
          exact ⟨t0, List.mem_cons_of_mem _ ht0, hc0, hrest⟩
        | some s1 =>
          rw [hso] at hs
          rcases List.mem_cons.mp hs with rfl | hs2
          · obtain ⟨hc, _, hmk⟩ := emitNeedType_ok_some heq s hso
            exact ⟨t, List.mem_cons_self t rest, hc, hmk⟩
          · obtain ⟨t0, ht0, hc0, hrest⟩ := ih tn2 schemas2 errs2 heq2 s hs2
            exact ⟨t0, List.mem_cons_of_mem _ ht0, hc0, hrest⟩

theorem write_sn_schemas_go_skip_all (tn : Option String) :
    ∀ (pre l : List ScoreNeedType), (∀ u ∈ pre, hasConstraints u = false) →
      write_sn_schemas_go tn (pre ++ l) = write_sn_schemas_go tn l := by
  intro pre
  induction pre with
  | nil => intro l _; rfl
  | cons u pre ih =>
    intro l hall
    rw [List.cons_append, write_sn_schemas_go,
      emitNeedType_skip (hall u (List.mem_cons_self u pre))]
    dsimp only
    rw [ih l (fun x hx => hall x (List.mem_cons_of_mem _ hx))]
    cases hgo : write_sn_schemas_go tn l with
    | error e => rfl
    | ok out => rfl

theorem write_sn_schemas_go_some_ok :
    ∀ (l : List ScoreNeedType) (name : String),
      ∃ out, write_sn_schemas_go (some name) l = .ok out := by
  intro l
  induction l with
  | nil => intro name; exact ⟨([], []), rfl⟩
  | cons t rest ih =>
    intro name
    rw [write_sn_schemas_go]
    obtain ⟨sOpt, errs, n2, hemit⟩ := emitNeedType_some_ok name t
    rw [hemit]
    dsimp only
    obtain ⟨⟨schemas2, errs2⟩, hgo⟩ := ih n2
    rw [hgo]
    exact ⟨_, rfl⟩

/-! ## Theorems: C7 (selector exactness) -/

/-- C7: every schema the emitter produces carries the selector of the type
declaration it was emitted for: it accepts exactly the items whose type
field equals that type's directive name, and never an item of any other
directive. -/
theorem c7_selector_exact (needs_types : List ScoreNeedType)
    (schemas : List TypeSchema) (errs : List String)
    (h : write_sn_schemas needs_types = .ok (schemas, errs)) :
    ∀ s ∈ schemas, ∃ t ∈ needs_types,
      (∀ it : Item, selMatches s.select it = true ↔ it.type = t.directive) ∧
      (∀ u ∈ needs_types, u.directive ≠ t.directive →
        ∀ it : Item, it.type = u.directive → selMatches s.select it = false) := by
  intro s hs
  obtain ⟨t, ht, hc, mr, orx, rfl⟩ :=
    write_sn_schemas_go_shape none needs_types schemas errs h s hs
  refine ⟨t, ht, ?_, ?_⟩
  · intro it
    simp [selMatches, mkTypeSchema]
  · intro u hu hne it hit
    simp only [selMatches, mkTypeSchema, hit]
    simp only [beq_eq_false_iff_ne, ne_eq]
    exact fun hh => hne hh

theorem c7_selector_exact_witness :
    ∃ t ∈ [wT7],
      (∀ it : Item, selMatches (mkTypeSchema wT7 [] []).select it = true ↔
        it.type = t.directive) ∧
      (∀ u ∈ [wT7], u.directive ≠ t.directive →
        ∀ it : Item, it.type = u.directive →
          selMatches (mkTypeSchema wT7 [] []).select it = false) :=
  c7_selector_exact [wT7] [mkTypeSchema wT7 [] []] [] (by rfl)
    (mkTypeSchema wT7 [] []) (List.mem_cons_self _ _)

/-! ## Theorems: C2 (the network validator is never emitted) -/

/-- C2 is false on the code: the schema emitted for cex2Type, whose
mandatory link field resolves to the declared type capability (a concrete
type name, not a wildcard), carries no network validator, because the
statements storing the per-link validators into validator_network are
disabled in the source. -/
theorem c2_counterexample :
    write_sn_schemas [cex2Type, cex2Cap] =
      .ok ([mkTypeSchema cex2Type [] [], mkTypeSchema cex2Cap [] []], []) ∧
    dictGet cex2Type.mandatory_links "implements" = some "capability" ∧
    pyStartswith "capability" "^" = false ∧
    (mkTypeSchema cex2Type [] []).validateNetwork = none :=
  ⟨by rfl, by rfl, by rfl, by rfl⟩

/-- C2 (amended): the emitted per-type schema never contains a network
validator, whether or not a link field has a concrete (non-wildcard)
resolved target: the source computes the concrete-target dicts but the
statements storing their validators into validator_network are disabled,
so the network key is absent from every emitted schema. -/
theorem c2_amended_no_network (needs_types : List ScoreNeedType)
    (schemas : List TypeSchema) (errs : List String)
    (h : write_sn_schemas needs_types = .ok (schemas, errs)) :
    ∀ s ∈ schemas, s.validateNetwork = none := by
  intro s hs
  obtain ⟨t, _, _, mr, orx, rfl⟩ :=
    write_sn_schemas_go_shape none needs_types schemas errs h s hs
  rfl

theorem c2_amended_no_network_witness :
    (mkTypeSchema cex2Type [] []).validateNetwork = none :=
  c2_amended_no_network [cex2Type, cex2Cap]
    [mkTypeSchema cex2Type [] [], mkTypeSchema cex2Cap [] []] [] (by rfl)
    (mkTypeSchema cex2Type [] []) (List.mem_cons_self _ _)

theorem emitNeedType_ok_tn {tn : Option String} {t : ScoreNeedType}
    {sOpt : Option TypeSchema} {errs : List String} {tn2 : Option String}
    (h : emitNeedType tn t = .ok (sOpt, errs, tn2)) :
    tn2 = if hasConstraints t then some t.directive else tn := by
  unfold emitNeedType at h
  split at h
  next hc =>
    rw [if_pos hc]
    split at h
    next e heq => simp at h
    next mr mt e1 heq =>
      split at h
      next e heq2 => simp at h
      next orx ot e12 heq2 =>
        simp only [Except.ok.injEq, Prod.mk.injEq] at h
        exact h.2.2.symm
  next hc =>
    rw [if_neg hc]
    simp only [Except.ok.injEq, Prod.mk.injEq] at h
    exact h.2.2.symm

theorem write_sn_schemas_go_msg_after (f val : String) :
    ∀ (pre : List ScoreNeedType) (tn : Option String) (name : String)
      (t2 : ScoreNeedType) (rest : List ScoreNeedType)
      (out : List TypeSchema × List String),
      tnAfter tn pre = some name →
      hasConstraints t2 = true →
      ((f, val) ∈ t2.mandatory_links ∨ (f, val) ∈ t2.optional_links) →
      2 ≤ wildcardCount val →
      write_sn_schemas_go tn (pre ++ t2 :: rest) = .ok out →
      (multipleRegexMsg "mandatory" f name ∈ out.2 ∨
        multipleRegexMsg "optional" f name ∈ out.2) := by
  intro pre
  induction pre with
  | nil =>
    intro tn name t2 rest out htn hc2 hmem hw h
    have htn2 : tn = some name := htn
    subst htn2
    rw [List.nil_append, write_sn_schemas_go] at h
    obtain ⟨sOpt2, errs2, hemit2, hin⟩ :=
      emitNeedType_some_dup_msg name t2 f val hc2 hmem hw
    rw [hemit2] at h
    dsimp only at h
    split at h
    next e heq => simp at h
    next schemas3 errs3 heq =>
      simp only [Except.ok.injEq] at h
      rw [← h]
      rcases hin with hin | hin
      · exact Or.inl (List.mem_append_left errs3 hin)
      · exact Or.inr (List.mem_append_left errs3 hin)
  | cons u pre ih =>
    intro tn name t2 rest out htn hc2 hmem hw h
    rw [List.cons_append, write_sn_schemas_go] at h
    split at h
    next e heq => simp at h
    next sOptu errsu tnu hequ =>
      split at h
      next e heq2 => simp at h
      next schemas2 errs2 heq2 =>
        have htnu := emitNeedType_ok_tn hequ
        have htn2 : tnAfter tnu pre = some name := by
          rw [htnu]
          exact htn
        have hin := ih tnu name t2 rest (schemas2, errs2) htn2 hc2 hmem hw heq2
        simp only [Except.ok.injEq] at h
        rw [← h]
        rcases hin with hin | hin
        · exact Or.inl (List.mem_append_right errsu hin)
        · exact Or.inr (List.mem_append_right errsu hin)

/-! ## Theorems: C10 (type_name read before assignment) -/

/-- C10: if the first type carrying any constraint declares a link field
whose specifier holds two or more wildcard entries, the emitter raises an
unhandled NameError (the duplicate-pattern branch reads type_name before
its first assignment); for any later type triggering the same branch in a
run that completes, after any number of constrained or skipped
predecessors, the logged message names the previously processed type: the
directive the type_name variable holds after the preceding types (the last
constrained one among them), rather than the current type's. -/
theorem c10_duplicate_wildcard_type_name :
    (∀ (pre : List ScoreNeedType) (t : ScoreNeedType)
      (rest : List ScoreNeedType) (f val : String),
      (∀ u ∈ pre, hasConstraints u = false) →
      hasConstraints t = true →
      ((f, val) ∈ t.mandatory_links ∨ (f, val) ∈ t.optional_links) →
      2 ≤ wildcardCount val →
      write_sn_schemas (pre ++ t :: rest) = .error "NameError") ∧
    (∀ (pre : List ScoreNeedType) (t2 : ScoreNeedType)
      (rest : List ScoreNeedType) (out : List TypeSchema × List String)
      (name f val : String),
      tnAfter none pre = some name →
      hasConstraints t2 = true →
      ((f, val) ∈ t2.mandatory_links ∨ (f, val) ∈ t2.optional_links) →
      2 ≤ wildcardCount val →
      write_sn_schemas (pre ++ t2 :: rest) = .ok out →
      (multipleRegexMsg "mandatory" f name ∈ out.2 ∨
        multipleRegexMsg "optional" f name ∈ out.2)) := by
  constructor
  · intro pre t rest f val hpre hc hmem hw
    unfold write_sn_schemas
    rw [write_sn_schemas_go_skip_all none pre (t :: rest) hpre,
      write_sn_schemas_go, emitNeedType_none_dup t f val hc hmem hw]
  · intro pre t2 rest out name f val htn hc2 hmem hw h
    exact write_sn_schemas_go_msg_after f val pre none name t2 rest out htn
      hc2 hmem hw h

theorem c10_duplicate_wildcard_type_name_witness :
    write_sn_schemas [wTDup] = .error "NameError" ∧
    (multipleRegexMsg "mandatory" "implements" "good2" ∈
        [multipleRegexMsg "mandatory" "implements" "good2"] ∨
      multipleRegexMsg "optional" "implements" "good2" ∈
        [multipleRegexMsg "mandatory" "implements" "good2"]) := by
  constructor
  · exact c10_duplicate_wildcard_type_name.1 [] wTDup [] "implements"
      "^a.*, ^b.*" (fun u hu => absurd hu (List.not_mem_nil u)) (by rfl)
      (Or.inl (by decide)) (by decide)
  · exact c10_duplicate_wildcard_type_name.2 [wTGood, wTGood2] wTDup []
      ([mkTypeSchema wTGood [] [], mkTypeSchema wTGood2 [] [],
        mkTypeSchema wTDup [("implements", "^b.*")] []],
        [multipleRegexMsg "mandatory" "implements" "good2"])
      "good2" "implements" "^a.*, ^b.*" (by rfl) (by rfl)
      (Or.inl (by decide)) (by decide) (by rfl)

end Spec2Proof
